import Mathlib

/-!
Verification of the conversational router in `new.py` (Sophia Bot, OHC
Pharmacy assistant).

The development shallowly embeds the program's core: the regex-based
intent classifier (`classify_intent` and the four compiled patterns), the
mutually-exclusive boolean route flags (`set_active` / `get_active` /
`reset_route`), the context-window construction
(`last_n_turns_from_global`), the reply generators (`chat_complete`,
`specialist_turn`, `general_reply`, `cgm_reply`, `weight_reply`,
`dme_reply`, `_dispatch`), the router (`route_message`) and the top-level
per-message driver (modelled as `process_input`).

Python strings are embedded as `List Char` (the ASCII fragment of
Python's semantics: `\s`, `\w`, `.strip()`, `.lower()` and `re.I` are
modelled on ASCII, which covers every pattern and literal in the
program).  The completion endpoint is an external collaborator; it is
embedded as an oracle parameter `svc` returning either an exception
(`Except.error ()`, modelling any raised error: network failure,
timeout, non-2xx, missing credential) or the raw `content` field of the
response (`Option (List Char)`, `none` modelling a null content).
-/

/-! ## A small regular-expression engine (Brzozowski derivatives)

Python's `re` patterns used by the program are alternations of literal
words joined by `\s*`/`\s+`/`[-\s]*` gaps with optional pieces, matched
case-insensitively (`re.I`) and, for the three keyword sets, searched
between word boundaries (`\b`).  Atoms are character classes. -/

/-- A character class: a case-insensitive letter (`re.I` on a literal),
the class `\s`, or a literal (caseless) character. -/
inductive CClass where
  | lower (a : Char)
  | space
  | chr (a : Char)
deriving DecidableEq, Repr

/-- Python's `\s` on ASCII: space, tab, newline, carriage return,
vertical tab, form feed. -/
def pyWS (c : Char) : Bool :=
  c = ' ' || c = '\t' || c = '\n' || c = '\r' || c = '\x0b' || c = '\x0c'

/-- Whether a character is in a class. -/
def CClass.test : CClass → Char → Bool
  | .lower a, c => c.toLower = a
  | .space, c => pyWS c
  | .chr a, c => c = a

/-- Regular expressions over character classes. -/
inductive RE where
  | fail
  | eps
  | atom (k : CClass)
  | alt (p q : RE)
  | cat (p q : RE)
  | star (p : RE)
deriving DecidableEq, Repr

/-- Does the expression accept the empty string? -/
def RE.nullable : RE → Bool
  | .fail => false
  | .eps => true
  | .atom _ => false
  | .alt p q => p.nullable || q.nullable
  | .cat p q => p.nullable && q.nullable
  | .star _ => true

/-- Brzozowski derivative by one character. -/
def RE.deriv : RE → Char → RE
  | .fail, _ => .fail
  | .eps, _ => .fail
  | .atom k, c => if k.test c then .eps else .fail
  | .alt p q, c => .alt (p.deriv c) (q.deriv c)
  | .cat p q, c =>
      .alt (.cat (p.deriv c) q) (if p.nullable then q.deriv c else .fail)
  | .star p, c => .cat (p.deriv c) (.star p)

/-- Executable matcher: derivative by every character, then nullability. -/
def RE.rmatch (r : RE) (l : List Char) : Bool :=
  (l.foldl RE.deriv r).nullable

/-- The matching relation, defined semantically. -/
inductive RE.Matches : RE → List Char → Prop where
  | eps : RE.Matches .eps []
  | atom {k : CClass} {c : Char} : k.test c = true → RE.Matches (.atom k) [c]
  | altL {p q : RE} {l : List Char} : RE.Matches p l → RE.Matches (.alt p q) l
  | altR {p q : RE} {l : List Char} : RE.Matches q l → RE.Matches (.alt p q) l
  | cat {p q : RE} {l₁ l₂ : List Char} :
      RE.Matches p l₁ → RE.Matches q l₂ → RE.Matches (.cat p q) (l₁ ++ l₂)
  | starNil {p : RE} : RE.Matches (.star p) []
  | starCons {p : RE} {l₁ l₂ : List Char} :
      RE.Matches p l₁ → RE.Matches (.star p) l₂ →
      RE.Matches (.star p) (l₁ ++ l₂)

theorem RE.fail_inv {l : List Char} (h : RE.Matches .fail l) : False := by
  cases h

theorem RE.eps_inv {l : List Char} (h : RE.Matches .eps l) : l = [] := by
  cases h; rfl

theorem RE.atom_inv {k : CClass} {l : List Char} (h : RE.Matches (.atom k) l) :
    ∃ c, l = [c] ∧ k.test c = true := by
  cases h with
  | atom hc => exact ⟨_, rfl, hc⟩

theorem RE.alt_inv {p q : RE} {l : List Char} (h : RE.Matches (.alt p q) l) :
    p.Matches l ∨ q.Matches l := by
  cases h with
  | altL h => exact Or.inl h
  | altR h => exact Or.inr h

theorem RE.cat_inv {p q : RE} {l : List Char} (h : RE.Matches (.cat p q) l) :
    ∃ l₁ l₂, l = l₁ ++ l₂ ∧ p.Matches l₁ ∧ q.Matches l₂ := by
  cases h with
  | cat hp hq => exact ⟨_, _, rfl, hp, hq⟩

theorem RE.nullable_iff (r : RE) : r.nullable = true ↔ r.Matches [] := by
  induction r with
  | fail => simp [RE.nullable]; intro h; cases h
  | eps => simp [RE.nullable]; exact .eps
  | atom k => simp [RE.nullable]; intro h; cases h
  | alt p q ihp ihq =>
      simp only [RE.nullable, Bool.or_eq_true]
      constructor
      · rintro (h | h)
        · exact .altL (ihp.mp h)
        · exact .altR (ihq.mp h)
      · intro h
        cases h with
        | altL h => exact Or.inl (ihp.mpr h)
        | altR h => exact Or.inr (ihq.mpr h)
  | cat p q ihp ihq =>
      simp only [RE.nullable, Bool.and_eq_true]
      constructor
      · rintro ⟨hp, hq⟩
        exact (List.nil_append []) ▸ RE.Matches.cat (ihp.mp hp) (ihq.mp hq)
      · intro h
        obtain ⟨l₁, l₂, hl, hp, hq⟩ := RE.cat_inv h
        obtain ⟨h₁, h₂⟩ := List.append_eq_nil.mp hl.symm
        exact ⟨ihp.mpr (h₁ ▸ hp), ihq.mpr (h₂ ▸ hq)⟩
  | star p _ =>
      simp only [RE.nullable, true_iff]
      exact .starNil

theorem RE.star_cons_inv_aux {r : RE} {m : List Char} (h : r.Matches m) :
    ∀ p c l, r = RE.star p → m = c :: l →
      ∃ l₁ l₂, l = l₁ ++ l₂ ∧ p.Matches (c :: l₁) ∧ (RE.star p).Matches l₂ := by
  induction h with
  | eps => intro p c l hr _; cases hr
  | atom _ => intro p c l hr _; cases hr
  | altL _ _ => intro p c l hr _; cases hr
  | altR _ _ => intro p c l hr _; cases hr
  | cat _ _ _ _ => intro p c l hr _; cases hr
  | starNil => intro p c l _ hm; cases hm
  | starCons h₁ h₂ ih₁ ih₂ =>
      intro p c l hr hm
      cases hr
      rename_i l₁ l₂
      cases l₁ with
      | nil => exact ih₂ _ c l rfl hm
      | cons c' l₁' =>
          rw [List.cons_append] at hm
          obtain ⟨hc, hl⟩ := List.cons.injEq _ _ _ _ ▸ hm
          exact ⟨l₁', l₂, hl.symm ▸ rfl, hc ▸ h₁, h₂⟩

theorem RE.star_cons_inv {p : RE} {c : Char} {l : List Char}
    (h : RE.Matches (.star p) (c :: l)) :
    ∃ l₁ l₂, l = l₁ ++ l₂ ∧ p.Matches (c :: l₁) ∧ (RE.star p).Matches l₂ :=
  RE.star_cons_inv_aux h p c l rfl rfl

theorem RE.deriv_matches (r : RE) (c : Char) :
    ∀ l, (r.deriv c).Matches l ↔ r.Matches (c :: l) := by
  induction r with
  | fail =>
      intro l
      constructor
      · intro h; exact absurd h RE.fail_inv
      · intro h; cases h
  | eps =>
      intro l
      constructor
      · intro h; exact absurd h RE.fail_inv
      · intro h; cases h
  | atom k =>
      intro l
      simp only [RE.deriv]
      by_cases hk : k.test c = true
      · rw [if_pos hk]
        constructor
        · intro h; rw [RE.eps_inv h]; exact .atom hk
        · intro h
          obtain ⟨c', hc', _⟩ := RE.atom_inv h
          obtain ⟨rfl, rfl⟩ := List.cons.injEq _ _ _ _ ▸ hc'
          exact .eps
      · rw [if_neg hk]
        constructor
        · intro h; exact absurd h RE.fail_inv
        · intro h
          obtain ⟨c', hc', ht⟩ := RE.atom_inv h
          obtain ⟨rfl, rfl⟩ := List.cons.injEq _ _ _ _ ▸ hc'
          exact absurd ht hk
  | alt p q ihp ihq =>
      intro l
      simp only [RE.deriv]
      constructor
      · intro h
        cases RE.alt_inv h with
        | inl h => exact .altL ((ihp l).mp h)
        | inr h => exact .altR ((ihq l).mp h)
      · intro h
        cases RE.alt_inv h with
        | inl h => exact .altL ((ihp l).mpr h)
        | inr h => exact .altR ((ihq l).mpr h)
  | cat p q ihp ihq =>
      intro l
      simp only [RE.deriv]
      constructor
      · intro h
        cases RE.alt_inv h with
        | inl h =>
            obtain ⟨l₁, l₂, rfl, h₁, h₂⟩ := RE.cat_inv h
            exact List.cons_append c l₁ l₂ ▸ RE.Matches.cat ((ihp l₁).mp h₁) h₂
        | inr h =>
            by_cases hn : p.nullable = true
            · rw [if_pos hn] at h
              have h0 : p.Matches [] := (RE.nullable_iff p).mp hn
              exact List.nil_append (c :: l) ▸ RE.Matches.cat h0 ((ihq l).mp h)
            · rw [if_neg hn] at h
              exact absurd h RE.fail_inv
      · intro h
        obtain ⟨l₁, l₂, hl, h₁, h₂⟩ := RE.cat_inv h
        cases l₁ with
        | nil =>
            rw [List.nil_append] at hl
            have hn : p.nullable = true := (RE.nullable_iff p).mpr h₁
            refine .altR ?_
            rw [if_pos hn]
            exact (ihq l).mpr (hl ▸ h₂)
        | cons c' l₁' =>
            rw [List.cons_append] at hl
            obtain ⟨hc, hl'⟩ := List.cons.injEq _ _ _ _ ▸ hl
            refine .altL ?_
            exact hl' ▸ RE.Matches.cat ((ihp l₁').mpr (hc ▸ h₁)) h₂
  | star p ihp =>
      intro l
      simp only [RE.deriv]
      constructor
      · intro h
        obtain ⟨l₁, l₂, rfl, h₁, h₂⟩ := RE.cat_inv h
        exact List.cons_append c l₁ l₂ ▸ RE.Matches.starCons ((ihp l₁).mp h₁) h₂
      · intro h
        obtain ⟨l₁, l₂, rfl, h₁, h₂⟩ := RE.star_cons_inv h
        exact .cat ((ihp l₁).mpr h₁) h₂

theorem RE.rmatch_iff (r : RE) (l : List Char) :
    r.rmatch l = true ↔ r.Matches l := by
  induction l generalizing r with
  | nil => exact RE.nullable_iff r
  | cons c l ih =>
      have : RE.rmatch r (c :: l) = RE.rmatch (r.deriv c) l := rfl
      rw [this, ih (r.deriv c)]
      exact RE.deriv_matches r c l

/-! ## Character facts: ASCII lowercasing and the classes `\s`, `\w` -/

theorem char_toNat_inj {c d : Char} (h : c.toNat = d.toNat) : c = d := by
  have hc := Char.ofNat_toNat c
  have hd := Char.ofNat_toNat d
  rw [← hc, ← hd, h]

theorem toNat_toLower (c : Char) :
    c.toLower.toNat = if 65 ≤ c.toNat ∧ c.toNat ≤ 90 then c.toNat + 32 else c.toNat := by
  rw [Char.toLower]
  by_cases h : 65 ≤ c.toNat ∧ c.toNat ≤ 90
  · rw [if_pos h, if_pos ⟨h.1, h.2⟩]
    have hv : (c.toNat + 32).isValidChar := Or.inl (by omega)
    rw [Char.ofNat, dif_pos hv]
    rfl
  · rw [if_neg h, if_neg fun hh => h ⟨hh.1, hh.2⟩]

theorem toLower_idem (c : Char) : c.toLower.toLower = c.toLower := by
  apply char_toNat_inj
  rw [toNat_toLower, toNat_toLower c]
  by_cases h : 65 ≤ c.toNat ∧ c.toNat ≤ 90
  · rw [if_pos h, if_neg (by omega)]
  · rw [if_neg h, if_neg h]

theorem char_eq_iff_toNat (c a : Char) (n : Nat) (h : a.toNat = n) :
    (c = a) ↔ (c.toNat = n) := by
  constructor
  · intro hc; rw [hc, h]
  · intro hc; exact char_toNat_inj (by rw [hc, h])

theorem pyWS_iff (c : Char) :
    pyWS c = true ↔
      c.toNat = 32 ∨ c.toNat = 9 ∨ c.toNat = 10 ∨ c.toNat = 13 ∨
      c.toNat = 11 ∨ c.toNat = 12 := by
  simp only [pyWS, Bool.or_eq_true, decide_eq_true_eq]
  rw [char_eq_iff_toNat c ' ' 32 rfl, char_eq_iff_toNat c '\t' 9 rfl,
    char_eq_iff_toNat c '\n' 10 rfl, char_eq_iff_toNat c '\r' 13 rfl,
    char_eq_iff_toNat c '\x0b' 11 rfl, char_eq_iff_toNat c '\x0c' 12 rfl]
  tauto

theorem pyWS_toLower (c : Char) : pyWS c.toLower = pyWS c := by
  rw [Bool.eq_iff_iff, pyWS_iff, pyWS_iff, toNat_toLower]
  by_cases h : 65 ≤ c.toNat ∧ c.toNat ≤ 90
  · simp only [if_pos h]; omega
  · simp only [if_neg h]

/-- Python's `\w` on ASCII (`[A-Za-z0-9_]`), stated over code points. -/
def isWordChar (c : Char) : Bool :=
  decide ((65 ≤ c.toNat ∧ c.toNat ≤ 90) ∨ (97 ≤ c.toNat ∧ c.toNat ≤ 122) ∨
    (48 ≤ c.toNat ∧ c.toNat ≤ 57) ∨ c.toNat = 95)

theorem isWordChar_toLower (c : Char) : isWordChar c.toLower = isWordChar c := by
  rw [Bool.eq_iff_iff]
  simp only [isWordChar, decide_eq_true_eq, toNat_toLower]
  by_cases h : 65 ≤ c.toNat ∧ c.toNat ≤ 90
  · simp only [if_pos h]; omega
  · simp only [if_neg h]

/-! ## Case-insensitivity: matching is invariant under lowercasing the input -/

/-- A class is compatible with input lowercasing.  Letter classes and `\s`
always are; a literal character is, provided it is not a basic latin
letter (every literal used by the program is punctuation). -/
def CClass.ciOK : CClass → Bool
  | .lower _ => true
  | .space => true
  | .chr a =>
      decide (¬(65 ≤ a.toNat ∧ a.toNat ≤ 90) ∧ ¬(97 ≤ a.toNat ∧ a.toNat ≤ 122))

theorem CClass.test_toLower {k : CClass} (hk : k.ciOK = true) (c : Char) :
    k.test c.toLower = k.test c := by
  cases k with
  | lower a => simp only [CClass.test, toLower_idem]
  | space => simp only [CClass.test, pyWS_toLower]
  | chr a =>
      simp only [CClass.ciOK, decide_eq_true_eq] at hk
      simp only [CClass.test]
      rw [Bool.eq_iff_iff, decide_eq_true_eq, decide_eq_true_eq,
        char_eq_iff_toNat c.toLower a a.toNat rfl, char_eq_iff_toNat c a a.toNat rfl,
        toNat_toLower]
      by_cases h : 65 ≤ c.toNat ∧ c.toNat ≤ 90
      · rw [if_pos h]; omega
      · rw [if_neg h]

/-- All atoms of the expression are compatible with lowercasing. -/
def RE.ciOK : RE → Bool
  | .fail => true
  | .eps => true
  | .atom k => k.ciOK
  | .alt p q => p.ciOK && q.ciOK
  | .cat p q => p.ciOK && q.ciOK
  | .star p => p.ciOK

theorem RE.deriv_toLower {r : RE} (hr : r.ciOK = true) (c : Char) :
    r.deriv c.toLower = r.deriv c := by
  induction r with
  | fail => rfl
  | eps => rfl
  | atom k => simp only [RE.deriv, CClass.test_toLower (hr : k.ciOK = true) c]
  | alt p q ihp ihq =>
      obtain ⟨hp, hq⟩ := Bool.and_eq_true _ _ ▸ hr
      simp only [RE.deriv, ihp hp, ihq hq]
  | cat p q ihp ihq =>
      obtain ⟨hp, hq⟩ := Bool.and_eq_true _ _ ▸ hr
      simp only [RE.deriv, ihp hp, ihq hq]
  | star p ihp => simp only [RE.deriv, ihp hr]

theorem RE.ciOK_deriv {r : RE} (hr : r.ciOK = true) (c : Char) :
    (r.deriv c).ciOK = true := by
  induction r with
  | fail => exact hr
  | eps => exact hr
  | atom k =>
      simp only [RE.deriv]
      by_cases hk : k.test c = true
      · rw [if_pos hk]; rfl
      · rw [if_neg hk]; rfl
  | alt p q ihp ihq =>
      obtain ⟨hp, hq⟩ := Bool.and_eq_true _ _ ▸ hr
      simp only [RE.deriv, RE.ciOK, ihp hp, ihq hq, Bool.and_self]
  | cat p q ihp ihq =>
      obtain ⟨hp, hq⟩ := Bool.and_eq_true _ _ ▸ hr
      have h1 : (RE.cat (p.deriv c) q).ciOK = true := by
        simp only [RE.ciOK, ihp hp, hq, Bool.and_self]
      have h2 : (if p.nullable then q.deriv c else RE.fail).ciOK = true := by
        by_cases hn : p.nullable = true
        · rw [if_pos hn]; exact ihq hq
        · rw [if_neg hn]; rfl
      simp only [RE.deriv, RE.ciOK, ihp hp, hq, h2, Bool.and_self, Bool.and_true]
  | star p ihp =>
      simp only [RE.ciOK] at hr
      simp only [RE.deriv, RE.ciOK, ihp hr, hr, Bool.and_self]

theorem RE.rmatch_toLower {r : RE} (hr : r.ciOK = true) (l : List Char) :
    r.rmatch (l.map Char.toLower) = r.rmatch l := by
  induction l generalizing r with
  | nil => rfl
  | cons c l ih =>
      have h1 : RE.rmatch r (List.map Char.toLower (c :: l)) =
          RE.rmatch (r.deriv c.toLower) (List.map Char.toLower l) := rfl
      have h2 : RE.rmatch r (c :: l) = RE.rmatch (r.deriv c) l := rfl
      rw [h1, h2, RE.deriv_toLower hr c, ih (RE.ciOK_deriv hr c)]

/-! ## No whitespace-only string matches the keyword/greeting bodies -/

/-- Some whitespace character is in the class. -/
def CClass.wsSat : CClass → Bool
  | .lower a => pyWS a
  | .space => true
  | .chr a => pyWS a

theorem CClass.test_ws {k : CClass} {c : Char} (hc : pyWS c = true)
    (hk : k.wsSat = false) : k.test c = false := by
  cases k with
  | lower a =>
      simp only [CClass.wsSat] at hk
      simp only [CClass.test]
      have hlow : c.toLower = c := by
        apply char_toNat_inj
        rw [toNat_toLower]
        rw [pyWS_iff] at hc
        rw [if_neg (by omega)]
      rw [hlow]
      by_cases h : c = a
      · rw [h] at hc; rw [hc] at hk; cases hk
      · exact decide_eq_false h
  | space => cases hk
  | chr a =>
      simp only [CClass.wsSat] at hk
      simp only [CClass.test]
      by_cases h : c = a
      · rw [h] at hc; rw [hc] at hk; cases hk
      · exact decide_eq_false h

/-- No whitespace-only string (the empty string included) matches. -/
def RE.wsDead : RE → Bool
  | .fail => true
  | .eps => false
  | .atom k => !k.wsSat
  | .alt p q => p.wsDead && q.wsDead
  | .cat p q => p.wsDead || q.wsDead
  | .star _ => false

theorem RE.wsDead_sound {r : RE} {l : List Char} (h : r.Matches l)
    (hdead : r.wsDead = true) (hws : ∀ c ∈ l, pyWS c = true) : False := by
  induction h with
  | eps => cases hdead
  | atom ht =>
      rename_i k c
      simp only [RE.wsDead, Bool.not_eq_true'] at hdead
      rw [CClass.test_ws (hws c (List.mem_singleton.mpr rfl)) hdead] at ht
      cases ht
  | altL _ ih =>
      obtain ⟨h1, _⟩ := Bool.and_eq_true _ _ ▸ hdead
      exact ih h1 hws
  | altR _ ih =>
      obtain ⟨_, h2⟩ := Bool.and_eq_true _ _ ▸ hdead
      exact ih h2 hws
  | cat _ _ ih₁ ih₂ =>
      rename_i p q l₁ l₂ _ _
      have hws₁ : ∀ c ∈ l₁, pyWS c = true := fun c hc =>
        hws c (List.mem_append.mpr (Or.inl hc))
      have hws₂ : ∀ c ∈ l₂, pyWS c = true := fun c hc =>
        hws c (List.mem_append.mpr (Or.inr hc))
      cases Bool.or_eq_true _ _ ▸ hdead with
      | inl h1 => exact ih₁ h1 hws₁
      | inr h2 => exact ih₂ h2 hws₂
  | starNil => cases hdead
  | starCons _ _ _ _ => cases hdead

/-- A nonempty match cannot begin with a whitespace character. -/
def RE.noWSfirst : RE → Bool
  | .fail => true
  | .eps => true
  | .atom k => !k.wsSat
  | .alt p q => p.noWSfirst && q.noWSfirst
  | .cat p q => p.noWSfirst && (!p.nullable || q.noWSfirst)
  | .star p => p.noWSfirst

theorem RE.noWSfirst_sound_aux {r : RE} {m : List Char} (h : r.Matches m)
    (hr : r.noWSfirst = true) : ∀ c l, m = c :: l → pyWS c = false := by
  induction h with
  | eps => intro c l hm; cases hm
  | atom ht =>
      rename_i k c'
      intro c l hm
      have hcc : c' = c := (List.cons.injEq _ _ _ _ ▸ hm).1
      simp only [RE.noWSfirst, Bool.not_eq_true'] at hr
      rw [← hcc]
      by_cases hws : pyWS c' = true
      · rw [CClass.test_ws hws hr] at ht; cases ht
      · exact Bool.not_eq_true _ ▸ hws
  | altL _ ih =>
      obtain ⟨h1, _⟩ := Bool.and_eq_true _ _ ▸ hr
      exact ih h1
  | altR _ ih =>
      obtain ⟨_, h2⟩ := Bool.and_eq_true _ _ ▸ hr
      exact ih h2
  | cat hp hq ih₁ ih₂ =>
      rename_i p q l₁ l₂
      obtain ⟨h1, h2⟩ := Bool.and_eq_true _ _ ▸ hr
      intro c l hm
      cases l₁ with
      | nil =>
          rw [List.nil_append] at hm
          have hn : p.nullable = true := (RE.nullable_iff p).mpr hp
          rw [hn] at h2
          simp only [Bool.not_true, Bool.false_or] at h2
          exact ih₂ h2 c l hm
      | cons c' l₁' =>
          rw [List.cons_append] at hm
          have hcc : c' = c := (List.cons.injEq _ _ _ _ ▸ hm).1
          exact hcc ▸ ih₁ h1 c' l₁' rfl
  | starNil => intro c l hm; cases hm
  | starCons hp hq ih₁ ih₂ =>
      rename_i p l₁ l₂
      intro c l hm
      cases l₁ with
      | nil =>
          rw [List.nil_append] at hm
          exact ih₂ hr c l hm
      | cons c' l₁' =>
          rw [List.cons_append] at hm
          have hcc : c' = c := (List.cons.injEq _ _ _ _ ▸ hm).1
          exact hcc ▸ ih₁ hr c' l₁' rfl

theorem RE.noWSfirst_sound {r : RE} {c : Char} {l : List Char}
    (h : r.Matches (c :: l)) (hr : r.noWSfirst = true) : pyWS c = false :=
  RE.noWSfirst_sound_aux h hr c l rfl

/-- A nonempty match cannot end with a whitespace character. -/
def RE.noWSlast : RE → Bool
  | .fail => true
  | .eps => true
  | .atom k => !k.wsSat
  | .alt p q => p.noWSlast && q.noWSlast
  | .cat p q => q.noWSlast && (!q.nullable || p.noWSlast)
  | .star p => p.noWSlast

theorem RE.noWSlast_sound_aux {r : RE} {m : List Char} (h : r.Matches m)
    (hr : r.noWSlast = true) : ∀ c, m.getLast? = some c → pyWS c = false := by
  induction h with
  | eps => intro c hm; cases hm
  | atom ht =>
      rename_i k c'
      intro c hm
      have hcc : c' = c := by
        simpa [List.getLast?] using hm
      simp only [RE.noWSlast, Bool.not_eq_true'] at hr
      rw [← hcc]
      by_cases hws : pyWS c' = true
      · rw [CClass.test_ws hws hr] at ht; cases ht
      · exact Bool.not_eq_true _ ▸ hws
  | altL _ ih =>
      obtain ⟨h1, _⟩ := Bool.and_eq_true _ _ ▸ hr
      exact ih h1
  | altR _ ih =>
      obtain ⟨_, h2⟩ := Bool.and_eq_true _ _ ▸ hr
      exact ih h2
  | cat hp hq ih₁ ih₂ =>
      rename_i p q l₁ l₂
      obtain ⟨h1, h2⟩ := Bool.and_eq_true _ _ ▸ hr
      intro c hm
      rw [List.getLast?_append] at hm
      cases hend : l₂.getLast? with
      | none =>
          rw [hend, Option.none_or] at hm
          have hnil : l₂ = [] := List.getLast?_eq_none_iff.mp hend
          have hn : q.nullable = true := (RE.nullable_iff q).mpr (hnil ▸ hq)
          rw [hn] at h2
          simp only [Bool.not_true, Bool.false_or] at h2
          exact ih₁ h2 c hm
      | some c' =>
          rw [hend, Option.or_some] at hm
          have hcc : c' = c := Option.some.injEq _ _ ▸ hm
          exact ih₂ h1 c (hcc ▸ hend)
  | starNil => intro c hm; cases hm
  | starCons hp hq ih₁ ih₂ =>
      rename_i p l₁ l₂
      intro c hm
      rw [List.getLast?_append] at hm
      cases hend : l₂.getLast? with
      | none =>
          rw [hend, Option.none_or] at hm
          exact ih₁ hr c hm
      | some c' =>
          rw [hend, Option.or_some] at hm
          have hcc : c' = c := Option.some.injEq _ _ ▸ hm
          exact ih₂ hr c (hcc ▸ hend)

theorem RE.noWSlast_sound {r : RE} {l : List Char} {c : Char}
    (h : r.Matches l) (hr : r.noWSlast = true) (hc : l.getLast? = some c) :
    pyWS c = false :=
  RE.noWSlast_sound_aux h hr c hc

/-- Every character of a match of `star (atom k)` is in the class `k`. -/
theorem RE.star_atom_all_aux {r : RE} {m : List Char} (h : r.Matches m) :
    ∀ k, r = RE.star (RE.atom k) → ∀ c ∈ m, k.test c = true := by
  induction h with
  | eps => intro k hk; cases hk
  | atom _ => intro k hk; cases hk
  | altL _ _ => intro k hk; cases hk
  | altR _ _ => intro k hk; cases hk
  | cat _ _ _ _ => intro k hk; cases hk
  | starNil =>
      intro k _ c hc
      cases hc
  | starCons h₁ h₂ ih₁ ih₂ =>
      intro k hk c hc
      obtain rfl : _ = RE.atom k := (RE.star.injEq _ _ ▸ hk)
      cases List.mem_append.mp hc with
      | inl hc₁ =>
          obtain ⟨c', rfl, ht⟩ := RE.atom_inv h₁
          rw [List.mem_singleton.mp hc₁]
          exact ht
      | inr hc₂ => exact ih₂ k rfl c hc₂

theorem RE.star_atom_all {k : CClass} {m : List Char}
    (h : RE.Matches (.star (.atom k)) m) : ∀ c ∈ m, k.test c = true :=
  RE.star_atom_all_aux h k rfl

/-! ## Word-boundary search and end-anchor matching

`re.search` on a pattern of the shape `\b(BODY)\b` succeeds iff some
substring matching BODY lies between two word boundaries; `\b` holds at a
position iff exactly one of its two neighbouring characters (string ends
count as non-words) is a word character.  `re.match` on the greeting
pattern `^...$` anchors at the start, and `$` accepts the end of the
string or the position just before a terminal newline. -/

def wordAt (s : List Char) (i : Nat) : Bool :=
  match s[i]? with
  | some c => isWordChar c
  | none => false

/-- `\b` at gap position `i` (between characters `i - 1` and `i`). -/
def wb (s : List Char) (i : Nat) : Bool :=
  (if i = 0 then false else wordAt s (i - 1)) != wordAt s i

/-- `re.search` of `\b(r)\b` in `s`. -/
def re_search_wb (r : RE) (s : List Char) : Bool :=
  (List.range (s.length + 1)).any fun i =>
    wb s i && ((List.range (s.length + 1 - i)).any fun d =>
      wb s (i + d) && r.rmatch ((s.drop i).take d))

/-- `re.match` of `^(r)$` against the whole of `s`. -/
def re_match_dollar (r : RE) (s : List Char) : Bool :=
  r.rmatch s ||
    (match s.getLast? with
      | some c => c = '\n' && r.rmatch s.dropLast
      | none => false)

/-! ## The four compiled patterns of `new.py` -/

/-- A single case-insensitive literal character. -/
def lchar (a : Char) : RE := .atom (.lower a)

/-- A case-insensitive literal word. -/
def lit (s : String) : RE := s.toList.foldr (fun c r => RE.cat (lchar c) r) RE.eps

/-- `(...)?` -/
def ropt (r : RE) : RE := .alt r .eps

/-- `\s*` -/
def ws0 : RE := .star (.atom .space)

/-- `\s+` -/
def ws1 : RE := .cat (.atom .space) ws0

/-- Alternation `a|b|...` of a list. -/
def altN (l : List RE) : RE := l.foldr RE.alt RE.fail

/-- Concatenation of a list. -/
def catN (l : List RE) : RE := l.foldr RE.cat RE.eps

/-- Body of `RGX_CGM`:
`cgms?|continuous\s+glucose\s+monitor(s)?|glucose\s+monitor(s)?|blood\s+sugar|dexcom|freestyle\s*-?\s*libre`
(searched between `\b`...`\b`, flag `re.I`). -/
def RGX_CGM_body : RE := altN [
  catN [lit "cgm", ropt (lchar 's')],
  catN [lit "continuous", ws1, lit "glucose", ws1, lit "monitor", ropt (lchar 's')],
  catN [lit "glucose", ws1, lit "monitor", ropt (lchar 's')],
  catN [lit "blood", ws1, lit "sugar"],
  lit "dexcom",
  catN [lit "freestyle", ws0, ropt (.atom (.chr '-')), ws0, lit "libre"]]

/-- Body of `RGX_WEIGHT`:
`weight[-\s]*loss|semaglutide|tirzepatide|ozempic|wegovy`
(searched between `\b`...`\b`, flag `re.I`). -/
def RGX_WEIGHT_body : RE := altN [
  catN [lit "weight", .star (.alt (.atom (.chr '-')) (.atom .space)), lit "loss"],
  lit "semaglutide",
  lit "tirzepatide",
  lit "ozempic",
  lit "wegovy"]

/-- Body of `RGX_DME`:
`blood\s*pressure\s*monitor(s)?|bp\s*monitor(s)?|walker(s)?|wheelchair(s)?|shower\s*chair(s)?|bath\s*-?\s*bench(es)?|commode(s)?|hospital\s*bed(s)?|dme|medical\s*equipment`
(searched between `\b`...`\b`, flag `re.I`). -/
def RGX_DME_body : RE := altN [
  catN [lit "blood", ws0, lit "pressure", ws0, lit "monitor", ropt (lchar 's')],
  catN [lit "bp", ws0, lit "monitor", ropt (lchar 's')],
  catN [lit "walker", ropt (lchar 's')],
  catN [lit "wheelchair", ropt (lchar 's')],
  catN [lit "shower", ws0, lit "chair", ropt (lchar 's')],
  catN [lit "bath", ws0, ropt (.atom (.chr '-')), ws0, lit "bench", ropt (lit "es")],
  catN [lit "commode", ropt (lchar 's')],
  catN [lit "hospital", ws0, lit "bed", ropt (lchar 's')],
  lit "dme",
  catN [lit "medical", ws0, lit "equipment"]]

/-- Body of `RGX_GREET`:
`^\s*(hi|hello|hey|salam|salaam|assalamualaikum|as-?salamu ?alaykum)\s*!*\.?$`
(anchored match, flag `re.I`). -/
def GREET_WORDS : RE := altN [lit "hi", lit "hello", lit "hey", lit "salam",
  lit "salaam", lit "assalamualaikum",
  catN [lit "as", ropt (.atom (.chr '-')), lit "salamu", ropt (.atom (.chr ' ')),
    lit "alaykum"]]

def RGX_GREET_body : RE := catN [
  ws0,
  GREET_WORDS,
  ws0,
  .star (.atom (.chr '!')),
  ropt (.atom (.chr '.'))]

/-- `classify_intent` from `new.py`. -/
def classify_intent (text : List Char) : String :=
  if re_match_dollar RGX_GREET_body text then "greet"
  else if re_search_wb RGX_CGM_body text then "cgm"
  else if re_search_wb RGX_WEIGHT_body text then "weight"
  else if re_search_wb RGX_DME_body text then "dme"
  else "general"

deriving instance DecidableEq for Except

/-! ## Strings: Python `.strip()` and `.lower()` on the ASCII fragment -/

/-- Python `str.lower()` (ASCII). -/
def strLower (l : List Char) : List Char := l.map Char.toLower

/-- Python `str.strip()` (ASCII): drop leading and trailing whitespace. -/
def strTrim (l : List Char) : List Char :=
  ((l.dropWhile pyWS).reverse.dropWhile pyWS).reverse

/-! ## Session state: chat log and route flags (`st.session_state`) -/

/-- One chat message dict `{"role": ..., "content": ...}`. -/
structure Msg where
  role : String
  content : List Char
deriving DecidableEq, Repr

/-- The boolean router flags `st.session_state.route`
(dict insertion order: cgm, weight, dme, general). -/
structure RouteFlags where
  cgm : Bool
  weight : Bool
  dme : Bool
  general : Bool
deriving DecidableEq, Repr

/-- `set_active(agent)`: every flag keyed `k` becomes `k == agent`. -/
def set_active (agent : String) (_r : RouteFlags) : RouteFlags :=
  { cgm := "cgm" = agent, weight := "weight" = agent,
    dme := "dme" = agent, general := "general" = agent }

/-- `get_active()`: first key (in dict order) whose flag is set. -/
def get_active (r : RouteFlags) : Option String :=
  if r.cgm then some "cgm"
  else if r.weight then some "weight"
  else if r.dme then some "dme"
  else if r.general then some "general"
  else none

/-- `reset_route()`: clear all flags, then set `general`. -/
def reset_route (_r : RouteFlags) : RouteFlags :=
  { cgm := false, weight := false, dme := false, general := true }

/-- The whole mutable session: global chat history plus route flags. -/
structure SessionState where
  messages : List Msg
  route : RouteFlags
deriving DecidableEq, Repr

/-- Initial session state: empty history, `general` active. -/
def initState : SessionState :=
  { messages := [], route := { cgm := false, weight := false, dme := false, general := true } }

/-! ## Prompts (static data from `new.py`) -/

def GENERAL_PROMPT : List Char :=
  "You are Sophia, the Master Assistant for OHC Pharmacy.\nAnswer general pharmacy questions in a friendly, concise way.\n".toList

def CGM_PROMPT : List Char :=
  "You are the CGM Specialist for OHC Pharmacy.\nStrict flow (one step at a time):\n1) Greeting & ID → Ask for full name and DOB.\n2) Insurance → Ask about insurance (Medicare/Medicaid/commercial). If none, explain cash-pay.\n3) Clinical → diabetes dx, insulin use, testing frequency, hypoglycemia, last A1c, doctor name.\n4) Rx & Medical Necessity → ask for photos; if not available, offer doctor outreach / telehealth link.\n5) Expectations → Rx + medical necessity needed before compliance packet & shipment.\n6) Delivery → ask for address & phone.\n7) If hesitant → offer call/appointment.\nTone: empathetic, supportive, short confirmations.\n".toList

def WEIGHT_PROMPT : List Char :=
  "You are the Weight Loss Specialist.\nStrict flow (stepwise, concise):\n1) Prior use → Ask if patient used semaglutide or tirzepatide.\n2) Program & Cost → cash-pay starts at $149; telehealth visit is free.\n3) Rx status → If Rx, ask for photo or doctor send. If no Rx, share telehealth link: https://landing.xpedicare.com/#/widget/d6t4\n4) Telehealth steps → choose med (injection/sublingual), create account, questions, upload ID + full-body photo, doctor review.\n5) After approval → pickup (free) or delivery ($20/$30).\n6) If hesitant → offer call/appointment.\n7) Common Qs → sema vs tirze, B12, injections vs sublingual, ~5min telehealth, uploads required.\nTone: friendly, simple, conversational.\n".toList

def DME_PROMPT : List Char :=
  "You are the General DME Specialist (Texas-compliant).\nStrict flow (concise):\n1) Greeting & ID → ask for name and DOB.\n2) Identify item → ask what equipment is needed.\n3) Insurance → ask if they have insurance; if yes collect details; if no explain cash-pay.\n4) Prescription rules (Texas):\n   - Always Rx: CPAP, oxygen, CGM, power/custom wheelchairs, hospital beds, spinal braces.\n   - Insurance needs Rx; cash doesn’t: walkers, canes, shower chairs, off-the-shelf braces, compression 20–30mmHg.\n   - Cash only: OTC supplies, comfort aids, low-compression stockings.\n   If Rx missing → offer telehealth.\n5) Clinical → condition, doctor, prior use, mobility aids.\n6) Expectations → insurance requires Rx + medical necessity before compliance packet & shipment.\n7) Delivery → ask for address and phone.\n8) If hesitant → offer call/appointment.\nTone: empathetic, supportive, clear.\n".toList

/-- The fixed placeholder used when a specialist reply is empty. -/
def NO_RESPONSE : List Char := "⚠️ No response.".toList

/-- Fixed acknowledgement for reset commands (`\x27` is an apostrophe). -/
def RESET_ACK : List Char :=
  "Okay, I\x27ve reset the conversation. How can I help you today?".toList

/-- Fixed greeting reply (`\x27` is an apostrophe). -/
def GREET_REPLY : List Char :=
  "Hi! I\x27m Sophia, the Master Assistant for OHC Pharmacy. How can I help you today?".toList

/-! ## The completion boundary and reply generation -/

/-- The external completion service: takes the outbound message list and
the temperature, returns a raised exception (`.error ()`) or the raw
(possibly null) `content` of the first choice. -/
abbrev Svc := List Msg → Float → Except Unit (Option (List Char))

/-- `chat_complete`: forwards to the service and returns
`(resp.choices[0].message.content or "").strip()`; an exception
propagates. -/
def chat_complete (svc : Svc) (messages : List Msg) (temperature : Float) :
    Except Unit (List Char) :=
  (svc messages temperature).map (fun content => strTrim (content.getD []))

/-- `last_n_turns_from_global`: copy the global history, drop a trailing
user message (the one being processed), keep the last `2 * n_turns`
entries, rebuilding each `{"role", "content"}` dict. -/
def last_n_turns_from_global (global : List Msg) (n_turns : Nat := 1) : List Msg :=
  let msgs :=
    match global.getLast? with
    | some m => if m.role = "user" then global.dropLast else global
    | none => global
  let keep := msgs.length - 2 * n_turns
  (msgs.drop keep).map (fun m => { role := m.role, content := m.content })

/-- The outbound message list built identically (three lines each) in
`specialist_turn` and `general_reply`:
`[system prompt] ++ last_n_turns_from_global(1) ++ [user text]`. -/
def build_ctx_msgs (system_prompt : List Char) (global : List Msg)
    (user_text : List Char) : List Msg :=
  { role := "system", content := system_prompt } ::
    (last_n_turns_from_global global 1 ++ [{ role := "user", content := user_text }])

/-- `specialist_turn`: call the service on the built context; an empty
("falsy") reply becomes the fixed placeholder; an exception propagates. -/
def specialist_turn (svc : Svc) (global : List Msg) (system_prompt : List Char)
    (user_text : List Char) (temp : Float := 0.2) : Except Unit (List Char) :=
  (chat_complete svc (build_ctx_msgs system_prompt global user_text) temp).map
    (fun r => if r = [] then NO_RESPONSE else r)

/-- `general_reply`: same context construction, temperature 0.6, and no
empty-reply fallback. -/
def general_reply (svc : Svc) (global : List Msg) (query : List Char) :
    Except Unit (List Char) :=
  chat_complete svc (build_ctx_msgs GENERAL_PROMPT global query) 0.6

def cgm_reply (svc : Svc) (global : List Msg) (query : List Char) :
    Except Unit (List Char) :=
  specialist_turn svc global CGM_PROMPT query

def weight_reply (svc : Svc) (global : List Msg) (query : List Char) :
    Except Unit (List Char) :=
  specialist_turn svc global WEIGHT_PROMPT query

def dme_reply (svc : Svc) (global : List Msg) (query : List Char) :
    Except Unit (List Char) :=
  specialist_turn svc global DME_PROMPT query

/-- `_dispatch` from `new.py` (leading underscore dropped). -/
def dispatch (svc : Svc) (global : List Msg) (agent : String) (query : List Char) :
    Except Unit (List Char) :=
  if agent = "cgm" then cgm_reply svc global query
  else if agent = "weight" then weight_reply svc global query
  else if agent = "dme" then dme_reply svc global query
  else general_reply svc global query

/-! ## The router -/

/-- `route_message`: reset commands short-circuit, then greeting, then the
active-route switch.  Returns the updated session state (the route flags
as mutated up to the point the function returns or the service raises)
together with the reply or the propagated exception. -/
def route_message (svc : Svc) (st : SessionState) (user_text : List Char) :
    SessionState × Except Unit (List Char) :=
  let txt := strTrim user_text
  if strLower txt = "reset".toList ∨ strLower txt = "exit".toList ∨
      strLower txt = "start over".toList then
    ({ st with route := reset_route st.route }, Except.ok RESET_ACK)
  else
    let intent := classify_intent txt
    let active := get_active st.route
    if intent = "greet" then
      ({ st with route := reset_route st.route }, Except.ok GREET_REPLY)
    else
      match active with
      | some a =>
          if intent = "general" then
            ({ st with route := set_active "general" st.route },
              general_reply svc st.messages txt)
          else if intent ≠ a then
            ({ st with route := set_active intent st.route },
              dispatch svc st.messages intent txt)
          else
            (st, dispatch svc st.messages a txt)
      | none =>
          ({ st with route := set_active "general" st.route },
            general_reply svc st.messages txt)

/-- The driver under `if user_input:` — append the user turn, route, then
append the assistant turn; if the service raised, the rerun aborts before
the assistant append (state mutations made so far persist). -/
def process_input (svc : Svc) (st : SessionState) (user_input : List Char) :
    SessionState × Except Unit (List Char) :=
  let st1 := { st with messages := st.messages ++ [{ role := "user", content := user_input }] }
  match route_message svc st1 user_input with
  | (st2, Except.ok reply) =>
      ({ st2 with messages := st2.messages ++ [{ role := "assistant", content := reply }] },
        Except.ok reply)
  | (st2, Except.error e) => (st2, Except.error e)

/-! ## Helper lemmas: classification structure and case-insensitivity -/

theorem list_any_congr {α : Type} {l : List α} {f g : α → Bool}
    (h : ∀ a ∈ l, f a = g a) : l.any f = l.any g := by
  induction l with
  | nil => rfl
  | cons a l ih =>
      simp only [List.any_cons]
      rw [h a (List.mem_cons_self a l), ih (fun x hx => h x (List.mem_cons_of_mem a hx))]

theorem classify_intent_mem (t : List Char) :
    classify_intent t ∈ (["greet", "cgm", "weight", "dme", "general"] : List String) := by
  unfold classify_intent
  split_ifs <;> simp

theorem toLower_eq_iff {a : Char} (h1 : ¬(65 ≤ a.toNat ∧ a.toNat ≤ 90))
    (h2 : ¬(97 ≤ a.toNat ∧ a.toNat ≤ 122)) (c : Char) :
    (c.toLower = a) ↔ (c = a) := by
  rw [char_eq_iff_toNat c.toLower a a.toNat rfl, char_eq_iff_toNat c a a.toNat rfl,
    toNat_toLower]
  by_cases h : 65 ≤ c.toNat ∧ c.toNat ≤ 90
  · rw [if_pos h]; omega
  · rw [if_neg h]

theorem re_match_dollar_strLower {r : RE} (hr : r.ciOK = true) (t : List Char) :
    re_match_dollar r (strLower t) = re_match_dollar r t := by
  unfold re_match_dollar strLower
  rw [RE.rmatch_toLower hr]
  congr 1
  rw [List.getLast?_map]
  cases hl : t.getLast? with
  | none => rfl
  | some c =>
      simp only [Option.map_some']
      rw [← List.map_dropLast, RE.rmatch_toLower hr]
      congr 1
      exact decide_eq_decide.mpr (toLower_eq_iff (by decide) (by decide) c)

theorem wordAt_strLower (s : List Char) (i : Nat) :
    wordAt (strLower s) i = wordAt s i := by
  unfold wordAt strLower
  rw [List.getElem?_map]
  cases s[i]? with
  | none => rfl
  | some c => simp only [Option.map_some']; exact isWordChar_toLower c

theorem wb_strLower (s : List Char) (i : Nat) : wb (strLower s) i = wb s i := by
  unfold wb
  rw [wordAt_strLower, wordAt_strLower]

theorem re_search_wb_strLower {r : RE} (hr : r.ciOK = true) (s : List Char) :
    re_search_wb r (strLower s) = re_search_wb r s := by
  unfold re_search_wb
  rw [show (strLower s).length = s.length from List.length_map _ _]
  apply list_any_congr
  intro i _
  rw [wb_strLower]
  congr 1
  apply list_any_congr
  intro d _
  rw [wb_strLower]
  congr 1
  have hdrop : (strLower s).drop i = strLower (s.drop i) := (List.map_drop _ _ _).symm
  have htake : (strLower (s.drop i)).take d = strLower ((s.drop i).take d) :=
    (List.map_take _ _ _).symm
  rw [hdrop, htake]
  exact RE.rmatch_toLower hr _

theorem classify_intent_strLower (t : List Char) :
    classify_intent (strLower t) = classify_intent t := by
  unfold classify_intent
  rw [re_match_dollar_strLower (by decide) t, re_search_wb_strLower (by decide) t,
    re_search_wb_strLower (by decide) t, re_search_wb_strLower (by decide) t]

/-! ## Helper lemmas: whitespace-only input -/

theorem re_search_wb_ws_false {r : RE} (hr : r.wsDead = true) {s : List Char}
    (hs : ∀ c ∈ s, pyWS c = true) : re_search_wb r s = false := by
  by_contra hcon
  have htrue : re_search_wb r s = true := by
    cases h : re_search_wb r s with
    | false => exact absurd h hcon
    | true => rfl
  unfold re_search_wb at htrue
  obtain ⟨i, _, hi⟩ := List.any_eq_true.mp htrue
  obtain ⟨_, hinner⟩ := Bool.and_eq_true _ _ ▸ hi
  obtain ⟨d, _, hd⟩ := List.any_eq_true.mp hinner
  obtain ⟨_, hm⟩ := Bool.and_eq_true _ _ ▸ hd
  have hmm := (RE.rmatch_iff _ _).mp hm
  refine RE.wsDead_sound hmm hr (fun c hc => hs c ?_)
  exact List.drop_subset i s (List.take_subset d _ hc)

theorem greet_ws_false {s : List Char} (hs : ∀ c ∈ s, pyWS c = true) :
    re_match_dollar RGX_GREET_body s = false := by
  have key : ∀ m : List Char, (∀ c ∈ m, pyWS c = true) →
      ¬ RGX_GREET_body.Matches m := by
    intro m hm hmat
    unfold RGX_GREET_body catN at hmat
    simp only [List.foldr] at hmat
    obtain ⟨l₁, l₂, hl, _, h₂⟩ := RE.cat_inv hmat
    obtain ⟨w, l₃, hl₂, hw, _⟩ := RE.cat_inv h₂
    have hwsub : ∀ c ∈ w, pyWS c = true := by
      intro c hc
      refine hm c ?_
      rw [hl, hl₂]
      exact List.mem_append.mpr (Or.inr (List.mem_append.mpr (Or.inl hc)))
    exact RE.wsDead_sound hw (by decide) hwsub
  unfold re_match_dollar
  cases hmatch : RGX_GREET_body.rmatch s with
  | true => exact absurd ((RE.rmatch_iff _ _).mp hmatch) (key s hs)
  | false =>
      simp only [Bool.false_or]
      cases hl : s.getLast? with
      | none => rfl
      | some c =>
          cases hdrop : RGX_GREET_body.rmatch s.dropLast with
          | true =>
              have hsub : ∀ x ∈ s.dropLast, pyWS x = true := fun x hx =>
                hs x (List.dropLast_subset s hx)
              exact absurd ((RE.rmatch_iff _ _).mp hdrop) (key _ hsub)
          | false => simp

theorem classify_intent_ws {t : List Char} (hs : ∀ c ∈ t, pyWS c = true) :
    classify_intent t = "general" := by
  unfold classify_intent
  rw [greet_ws_false hs, re_search_wb_ws_false (by decide) hs,
    re_search_wb_ws_false (by decide) hs, re_search_wb_ws_false (by decide) hs]
  rfl

theorem classify_intent_of_reset_cmd {t : List Char}
    (h : strLower t = "reset".toList ∨ strLower t = "exit".toList ∨
      strLower t = "start over".toList) :
    classify_intent t = "general" := by
  rw [← classify_intent_strLower t]
  rcases h with h | h | h <;> rw [h] <;> decide

/-! ## Helper lemmas: trimming -/

theorem dropWhile_append_of_all {p : Char → Bool} {s1 rest : List Char}
    (h : ∀ c ∈ s1, p c = true) :
    (s1 ++ rest).dropWhile p = rest.dropWhile p := by
  induction s1 with
  | nil => rfl
  | cons c s ih =>
      rw [List.cons_append, List.dropWhile_cons_of_pos (h c (List.mem_cons_self c s))]
      exact ih (fun x hx => h x (List.mem_cons_of_mem c hx))

theorem trimRight_eq_self {l : List Char} {c : Char} (hc : l.getLast? = some c)
    (h : pyWS c = false) : (l.reverse.dropWhile pyWS).reverse = l := by
  have hl : l.dropLast ++ [c] = l :=
    List.dropLast_append_getLast? c (Option.mem_def.mpr hc)
  rw [← hl, List.reverse_append, List.reverse_singleton, List.singleton_append,
    List.dropWhile_cons_of_neg (by rw [h]; exact Bool.false_ne_true)]
  simp

theorem trimRight_append_ws {l s2 : List Char} (h : ∀ c ∈ s2, pyWS c = true) :
    ((l ++ s2).reverse.dropWhile pyWS).reverse = (l.reverse.dropWhile pyWS).reverse := by
  rw [List.reverse_append,
    dropWhile_append_of_all (fun c hc => h c (List.mem_reverse.mp hc))]

theorem strTrim_concat_ws {x : List Char} {c : Char} (hc : pyWS c = true) :
    strTrim (x ++ [c]) = strTrim x := by
  unfold strTrim
  rw [List.dropWhile_append]
  by_cases he : (x.dropWhile pyWS).isEmpty = true
  · rw [if_pos he]
    rw [List.isEmpty_iff] at he
    rw [he]
    simp only [List.dropWhile_cons_of_pos hc, List.dropWhile_nil, List.reverse_nil]
  · rw [if_neg he]
    rw [List.reverse_append, List.reverse_singleton, List.singleton_append,
      List.dropWhile_cons_of_pos hc]

theorem trimRight_concat_keep {x : List Char} {c : Char} (h : pyWS c = false) :
    ((x ++ [c]).reverse.dropWhile pyWS).reverse = x ++ [c] := by
  rw [List.reverse_append, List.reverse_singleton, List.singleton_append,
    List.dropWhile_cons_of_neg (by rw [h]; exact Bool.false_ne_true)]
  simp

/-- A match of the greeting pattern is preserved by stripping surrounding
whitespace: the matched decomposition `\s* WORD \s* !* \.?` is rebuilt
with the outer whitespace chunks emptied. -/
theorem greet_matches_strTrim {l : List Char} (h : RGX_GREET_body.Matches l) :
    RGX_GREET_body.Matches (strTrim l) := by
  unfold RGX_GREET_body catN at h ⊢
  simp only [List.foldr] at h ⊢
  obtain ⟨s1, r1, hl, hs1, h1⟩ := RE.cat_inv h
  obtain ⟨w, r2, hr1, hw, h2⟩ := RE.cat_inv h1
  obtain ⟨s2, r3, hr2, hs2, h3⟩ := RE.cat_inv h2
  obtain ⟨b, r4, hr3, hb, h4⟩ := RE.cat_inv h3
  obtain ⟨d, e, hr4, hd, he⟩ := RE.cat_inv h4
  have he0 : e = [] := RE.eps_inv he
  subst he0 hr4 hr3 hr2 hr1 hl
  have hs1ws : ∀ c ∈ s1, pyWS c = true := fun c hc => RE.star_atom_all hs1 c hc
  have hs2ws : ∀ c ∈ s2, pyWS c = true := fun c hc => RE.star_atom_all hs2 c hc
  have hbang : ∀ c ∈ b, c = '!' := fun c hc =>
    of_decide_eq_true (RE.star_atom_all hb c hc)
  have hwne : w ≠ [] := by
    intro h0
    rw [h0] at hw
    exact RE.wsDead_sound hw (by decide) (fun c hc => absurd hc (List.not_mem_nil c))
  obtain ⟨cw, w', rfl⟩ := List.exists_cons_of_ne_nil hwne
  have hcw : pyWS cw = false := RE.noWSfirst_sound hw (by decide)
  simp only [List.cons_append, List.append_nil] at *
  have htrimL : (s1 ++ (cw :: (w' ++ (s2 ++ (b ++ d))))).dropWhile pyWS
      = cw :: (w' ++ (s2 ++ (b ++ d))) := by
    rw [dropWhile_append_of_all hs1ws,
      List.dropWhile_cons_of_neg (by rw [hcw]; exact Bool.false_ne_true)]
  cases RE.alt_inv hd with
  | inl hdot =>
      obtain ⟨cd, rfl, hcd⟩ := RE.atom_inv hdot
      have hcd' : cd = '.' := of_decide_eq_true hcd
      subst hcd'
      have hkey : strTrim (s1 ++ (cw :: (w' ++ (s2 ++ (b ++ ['.'])))))
          = cw :: (w' ++ (s2 ++ (b ++ ['.']))) := by
        unfold strTrim
        rw [htrimL]
        have hshape : cw :: (w' ++ (s2 ++ (b ++ ['.'])))
            = (cw :: (w' ++ (s2 ++ b))) ++ ['.'] := by simp
        rw [hshape, trimRight_concat_keep (by decide)]
      rw [hkey]
      have hmat := RE.Matches.cat (RE.Matches.starNil (p := .atom .space))
        (RE.Matches.cat hw (RE.Matches.cat hs2
          (RE.Matches.cat hb (RE.Matches.cat hd RE.Matches.eps))))
      simpa using hmat
  | inr hde =>
      have hd0 : d = [] := RE.eps_inv hde
      subst hd0
      simp only [List.append_nil] at htrimL ⊢
      cases hbcase : b with
      | cons cb b' =>
          subst hbcase
          have hbne : (cb :: b') ≠ [] := List.cons_ne_nil cb b'
          have hlast_mem := List.getLast_mem hbne
          have hlast_bang : (cb :: b').getLast hbne = '!' := hbang _ hlast_mem
          have hsplit : (cb :: b').dropLast ++ [(cb :: b').getLast hbne] = cb :: b' :=
            List.dropLast_concat_getLast hbne
          have hkey : strTrim (s1 ++ (cw :: (w' ++ (s2 ++ (cb :: b')))))
              = cw :: (w' ++ (s2 ++ (cb :: b'))) := by
            unfold strTrim
            rw [htrimL]
            have hshape : cw :: (w' ++ (s2 ++ (cb :: b')))
                = (cw :: (w' ++ (s2 ++ (cb :: b').dropLast))) ++ [(cb :: b').getLast hbne] := by
              conv_lhs => rw [← hsplit]
              simp
            rw [hshape, trimRight_concat_keep (by rw [hlast_bang]; decide)]
          rw [hkey]
          have hmat := RE.Matches.cat (RE.Matches.starNil (p := .atom .space))
            (RE.Matches.cat hw (RE.Matches.cat hs2
              (RE.Matches.cat hb (RE.Matches.cat
                (RE.Matches.altR (p := .atom (.chr '.')) hde) RE.Matches.eps))))
          simpa using hmat
      | nil =>
          subst hbcase
          simp only [List.append_nil] at htrimL ⊢
          have hkey : strTrim (s1 ++ (cw :: (w' ++ s2))) = cw :: w' := by
            unfold strTrim
            rw [htrimL]
            have hshape : cw :: (w' ++ s2) = (cw :: w') ++ s2 := by simp
            rw [hshape, trimRight_append_ws hs2ws]
            cases hgl : (cw :: w').getLast? with
            | none =>
                exact absurd (List.getLast?_eq_none_iff.mp hgl) (List.cons_ne_nil cw w')
            | some x =>
                exact trimRight_eq_self hgl (RE.noWSlast_sound hw (by decide) hgl)
          rw [hkey]
          have hmat := RE.Matches.cat (RE.Matches.starNil (p := .atom .space))
            (RE.Matches.cat hw (RE.Matches.cat (RE.Matches.starNil (p := .atom .space))
              (RE.Matches.cat (RE.Matches.starNil (p := .atom (.chr '!')))
                (RE.Matches.cat
                  (RE.Matches.altR (p := .atom (.chr '.')) hde) RE.Matches.eps))))
          simpa using hmat

theorem greet_match_strTrim {t : List Char}
    (h : re_match_dollar RGX_GREET_body t = true) :
    re_match_dollar RGX_GREET_body (strTrim t) = true := by
  unfold re_match_dollar at h
  rcases (Bool.or_eq_true _ _) ▸ h with h1 | h2
  · have hmm := greet_matches_strTrim ((RE.rmatch_iff _ _).mp h1)
    unfold re_match_dollar
    rw [(RE.rmatch_iff _ _).mpr hmm]
    simp
  · cases hl : t.getLast? with
    | none => rw [hl] at h2; cases h2
    | some c =>
        rw [hl] at h2
        obtain ⟨hc, hm⟩ := Bool.and_eq_true _ _ ▸ h2
        have hceq : c = '\n' := of_decide_eq_true hc
        have hmm := greet_matches_strTrim ((RE.rmatch_iff _ _).mp hm)
        have hteq : strTrim t = strTrim t.dropLast := by
          have hsplit : t.dropLast ++ [c] = t :=
            List.dropLast_append_getLast? c (Option.mem_def.mpr hl)
          conv_lhs => rw [← hsplit]
          rw [strTrim_concat_ws (by rw [hceq]; decide)]
        unfold re_match_dollar
        rw [hteq, (RE.rmatch_iff _ _).mpr hmm]
        simp

/-- If the classified intent of the (trimmed) text is `greet`, the input
cannot be one of the three reset commands. -/
theorem greet_not_reset_cmd {t : List Char}
    (h : re_match_dollar RGX_GREET_body t = true) :
    ¬(strLower t = "reset".toList ∨ strLower t = "exit".toList ∨
      strLower t = "start over".toList) := by
  intro hcmd
  have hlow : re_match_dollar RGX_GREET_body (strLower t) = true := by
    rw [re_match_dollar_strLower (by decide) t]
    exact h
  rcases hcmd with hc | hc | hc <;> rw [hc] at hlow <;> exact absurd hlow (by decide)

/-- A specialist or general classification of the trimmed text also rules
out the reset commands. -/
theorem classify_ne_general_not_reset_cmd {t : List Char}
    (h : classify_intent t ≠ "general") :
    ¬(strLower t = "reset".toList ∨ strLower t = "exit".toList ∨
      strLower t = "start over".toList) := by
  intro hcmd
  exact h (classify_intent_of_reset_cmd hcmd)

/-! ## Helper lemmas: route flags and router paths -/

/-- Number of route flags that are set. -/
def activeCount (r : RouteFlags) : Nat :=
  (if r.cgm then 1 else 0) + (if r.weight then 1 else 0) +
    (if r.dme then 1 else 0) + (if r.general then 1 else 0)

/-- The static prompt registry: the template used by each route. -/
def prompt_of (agent : String) : List Char :=
  if agent = "cgm" then CGM_PROMPT
  else if agent = "weight" then WEIGHT_PROMPT
  else if agent = "dme" then DME_PROMPT
  else GENERAL_PROMPT

theorem dispatch_specialist {svc : Svc} {global : List Msg} {agent : String}
    {query : List Char} (h : agent ∈ (["cgm", "weight", "dme"] : List String)) :
    dispatch svc global agent query = specialist_turn svc global (prompt_of agent) query := by
  have h' : agent = "cgm" ∨ agent = "weight" ∨ agent = "dme" := by simpa using h
  rcases h' with h' | h' | h' <;> subst h' <;> rfl

theorem set_active_valid_count {r : RouteFlags} {s : String}
    (h : s ∈ (["cgm", "weight", "dme", "general"] : List String)) :
    activeCount (set_active s r) = 1 := by
  have h' : s = "cgm" ∨ s = "weight" ∨ s = "dme" ∨ s = "general" := by simpa using h
  rcases h' with h' | h' | h' | h' <;> subst h' <;> rfl

theorem route_message_reset_eq {svc : Svc} {st : SessionState} {t : List Char}
    (h : strLower (strTrim t) = "reset".toList ∨
      strLower (strTrim t) = "exit".toList ∨
      strLower (strTrim t) = "start over".toList) :
    route_message svc st t =
      ({ st with route := reset_route st.route }, Except.ok RESET_ACK) := by
  unfold route_message
  rw [if_pos h]

theorem classify_intent_greet_iff (t : List Char) :
    classify_intent t = "greet" ↔ re_match_dollar RGX_GREET_body t = true := by
  unfold classify_intent
  constructor
  · intro h
    by_cases hg : re_match_dollar RGX_GREET_body t = true
    · exact hg
    · rw [if_neg hg] at h
      split_ifs at h <;> simp_all
  · intro h
    rw [if_pos h]

theorem route_message_greet_eq {svc : Svc} {st : SessionState} {t : List Char}
    (h : re_match_dollar RGX_GREET_body (strTrim t) = true) :
    route_message svc st t =
      ({ st with route := reset_route st.route }, Except.ok GREET_REPLY) := by
  unfold route_message
  rw [if_neg (greet_not_reset_cmd h), if_pos ((classify_intent_greet_iff _).mpr h)]

theorem route_message_switch_eq {svc : Svc} {st : SessionState} {t : List Char}
    {a : String} (hact : get_active st.route = some a)
    (hmem : classify_intent (strTrim t) ∈ (["cgm", "weight", "dme"] : List String))
    (hne : classify_intent (strTrim t) ≠ a) :
    route_message svc st t =
      ({ st with route := set_active (classify_intent (strTrim t)) st.route },
        dispatch svc st.messages (classify_intent (strTrim t)) (strTrim t)) := by
  have hmem' : classify_intent (strTrim t) = "cgm" ∨
      classify_intent (strTrim t) = "weight" ∨
      classify_intent (strTrim t) = "dme" := by simpa using hmem
  have hng : classify_intent (strTrim t) ≠ "greet" := by
    rcases hmem' with h | h | h <;> rw [h] <;> decide
  have hngen : classify_intent (strTrim t) ≠ "general" := by
    rcases hmem' with h | h | h <;> rw [h] <;> decide
  unfold route_message
  rw [if_neg (classify_ne_general_not_reset_cmd hngen), if_neg hng, hact]
  simp only [if_neg hngen, ne_eq, hne, not_false_eq_true, if_pos]

theorem route_message_activeCount {svc : Svc} {st : SessionState} {t : List Char}
    (h : activeCount st.route = 1) :
    activeCount (route_message svc st t).1.route = 1 := by
  have hmem5 := classify_intent_mem (strTrim t)
  simp only [List.mem_cons, List.mem_singleton, List.not_mem_nil, or_false] at hmem5
  simp only [route_message]
  split
  · rfl
  · split
    · rfl
    · rename_i hgreet
      split
      · rename_i x a hact
        split
        · show activeCount (set_active "general" st.route) = 1
          exact set_active_valid_count (by simp)
        · rename_i hgen
          split
          · show activeCount (set_active (classify_intent (strTrim t)) st.route) = 1
            refine set_active_valid_count ?_
            rcases hmem5 with h5 | h5 | h5 | h5 | h5
            · exact absurd h5 hgreet
            · rw [h5]; simp
            · rw [h5]; simp
            · rw [h5]; simp
            · exact absurd h5 hgen
          · show activeCount st.route = 1
            exact h
      · show activeCount (set_active "general" st.route) = 1
        exact set_active_valid_count (by simp)

theorem process_input_activeCount {svc : Svc} {st : SessionState} {t : List Char}
    (h : activeCount st.route = 1) :
    activeCount (process_input svc st t).1.route = 1 := by
  simp only [process_input]
  have h2 : activeCount (route_message svc
      { st with messages := st.messages ++ [{ role := "user", content := t }] } t).1.route = 1 :=
    route_message_activeCount h
  split
  · rename_i st2 reply heq
    rw [heq] at h2
    exact h2
  · rename_i st2 e heq
    rw [heq] at h2
    exact h2

theorem route_message_error_prop {svc : Svc} {e : Unit} {st : SessionState}
    {t : List Char} (hsvc : ∀ msgs temp, svc msgs temp = Except.error e)
    (hreset : ¬(strLower (strTrim t) = "reset".toList ∨
      strLower (strTrim t) = "exit".toList ∨ strLower (strTrim t) = "start over".toList))
    (hgreet : classify_intent (strTrim t) ≠ "greet") :
    (route_message svc st t).2 = Except.error e := by
  have hgen : ∀ g q, general_reply svc g q = Except.error e := by
    intro g q
    unfold general_reply chat_complete
    rw [hsvc]
    rfl
  have hspec : ∀ g p q, specialist_turn svc g p q = Except.error e := by
    intro g p q
    unfold specialist_turn chat_complete
    rw [hsvc]
    rfl
  have hdisp : ∀ g ag q, dispatch svc g ag q = Except.error e := by
    intro g ag q
    unfold dispatch
    split_ifs <;> first | exact hspec _ _ _ | exact hgen _ _
  simp only [route_message]
  rw [if_neg hreset, if_neg hgreet]
  split
  · rename_i x a hact
    split
    · exact hgen _ _
    · split
      · exact hdisp _ _ _
      · exact hdisp _ _ _
  · exact hgen _ _

/-! ## Concrete fixtures used by witnesses and counterexamples -/

/-- A completion service that always raises (network error, timeout,
missing credential, ...). -/
def svcFail : Svc := fun _ _ => Except.error ()

/-- A completion service that returns a whitespace-only content. -/
def svcBlank : Svc := fun _ _ => Except.ok (some ("   ".toList))

/-- A completion service that returns a fixed non-empty reply. -/
def svcOkSure : Svc := fun _ _ => Except.ok (some ("Sure.".toList))

/-- A session with the CGM route active. -/
def stCgm : SessionState :=
  { messages := [], route := { cgm := true, weight := false, dme := false, general := false } }

/-- A session with the DME route active. -/
def stDme : SessionState :=
  { messages := [], route := { cgm := false, weight := false, dme := true, general := false } }

/-! ## Claims -/

/-- Claim C6: `classify_intent` applies strict ordered first-match-wins
precedence (greeting, then CGM, then weight-loss, then DME, else
general); every input gets exactly one of the five labels; the label is
case-insensitive (lowercasing the input does not change it); and empty or
whitespace-only input classifies as `general`. -/
theorem claim_C6 (t : List Char) :
    (re_match_dollar RGX_GREET_body t = true → classify_intent t = "greet")
    ∧ (re_match_dollar RGX_GREET_body t = false →
        re_search_wb RGX_CGM_body t = true → classify_intent t = "cgm")
    ∧ (re_match_dollar RGX_GREET_body t = false →
        re_search_wb RGX_CGM_body t = false →
        re_search_wb RGX_WEIGHT_body t = true → classify_intent t = "weight")
    ∧ (re_match_dollar RGX_GREET_body t = false →
        re_search_wb RGX_CGM_body t = false →
        re_search_wb RGX_WEIGHT_body t = false →
        re_search_wb RGX_DME_body t = true → classify_intent t = "dme")
    ∧ (re_match_dollar RGX_GREET_body t = false →
        re_search_wb RGX_CGM_body t = false →
        re_search_wb RGX_WEIGHT_body t = false →
        re_search_wb RGX_DME_body t = false → classify_intent t = "general")
    ∧ classify_intent t ∈ (["greet", "cgm", "weight", "dme", "general"] : List String)
    ∧ classify_intent (strLower t) = classify_intent t
    ∧ ((∀ c ∈ t, pyWS c = true) → classify_intent t = "general") := by
  refine ⟨?_, ?_, ?_, ?_, ?_, classify_intent_mem t, classify_intent_strLower t,
    fun hw => classify_intent_ws hw⟩
  · intro h
    unfold classify_intent
    rw [if_pos h]
  · intro h1 h2
    unfold classify_intent
    rw [if_neg (by rw [h1]; exact Bool.false_ne_true), if_pos h2]
  · intro h1 h2 h3
    unfold classify_intent
    rw [if_neg (by rw [h1]; exact Bool.false_ne_true),
      if_neg (by rw [h2]; exact Bool.false_ne_true), if_pos h3]
  · intro h1 h2 h3 h4
    unfold classify_intent
    rw [if_neg (by rw [h1]; exact Bool.false_ne_true),
      if_neg (by rw [h2]; exact Bool.false_ne_true),
      if_neg (by rw [h3]; exact Bool.false_ne_true), if_pos h4]
  · intro h1 h2 h3 h4
    unfold classify_intent
    rw [if_neg (by rw [h1]; exact Bool.false_ne_true),
      if_neg (by rw [h2]; exact Bool.false_ne_true),
      if_neg (by rw [h3]; exact Bool.false_ne_true),
      if_neg (by rw [h4]; exact Bool.false_ne_true)]

/-- Witness for C6 at concrete inputs: a CGM keyword classifies as `cgm`
(second precedence rule) and whitespace-only input classifies as
`general`. -/
theorem claim_C6_witness :
    classify_intent ("Dexcom".toList) = "cgm"
    ∧ classify_intent ("   ".toList) = "general" :=
  ⟨(claim_C6 ("Dexcom".toList)).2.1 (by decide) (by decide),
   (claim_C6 ("   ".toList)).2.2.2.2.2.2.2 (by decide)⟩

/-- Claim C7: an input whose trimmed form is case-insensitively one of
"reset" / "exit" / "start over" makes `route_message` reset the route
flags to general-only and return the fixed acknowledgement, for every
service and state (universality over `svc` — including the always-raising
service of the witness — shows no completion call is consulted), and this
holds regardless of what the classifier would say. -/
theorem claim_C7 (svc : Svc) (st : SessionState) (t : List Char)
    (h : strLower (strTrim t) = "reset".toList ∨
      strLower (strTrim t) = "exit".toList ∨
      strLower (strTrim t) = "start over".toList) :
    route_message svc st t =
      ({ st with route := { cgm := false, weight := false, dme := false, general := true } },
        Except.ok RESET_ACK) :=
  route_message_reset_eq h

/-- Witness for C7: `" EXIT "` with the always-raising service. -/
theorem claim_C7_witness :
    route_message svcFail stCgm (" EXIT ".toList) =
      ({ stCgm with route := { cgm := false, weight := false, dme := false, general := true } },
        Except.ok RESET_ACK) :=
  claim_C7 svcFail stCgm (" EXIT ".toList) (by decide)

/-- Claim C9: on a reset command, `route_message` reinitializes the route
to general while leaving the conversation log unchanged: the returned
state carries exactly the input `messages`. -/
theorem claim_C9 (svc : Svc) (st : SessionState) (t : List Char)
    (h : strLower (strTrim t) = "reset".toList ∨
      strLower (strTrim t) = "exit".toList ∨
      strLower (strTrim t) = "start over".toList) :
    (route_message svc st t).1.messages = st.messages
    ∧ (route_message svc st t).1.route =
        { cgm := false, weight := false, dme := false, general := true } := by
  rw [route_message_reset_eq h]
  exact ⟨rfl, rfl⟩

/-- Witness for C9: `"Start Over"` on a session with history. -/
theorem claim_C9_witness :
    (route_message svcOkSure
        { messages := [{ role := "user", content := "x".toList }], route := stDme.route }
        ("Start Over".toList)).1.messages = [{ role := "user", content := "x".toList }]
    ∧ (route_message svcOkSure
        { messages := [{ role := "user", content := "x".toList }], route := stDme.route }
        ("Start Over".toList)).1.route =
        { cgm := false, weight := false, dme := false, general := true } :=
  claim_C9 svcOkSure _ ("Start Over".toList) (by decide)

/-- Claim C8: every input matching the greeting pattern classifies as
`greet`, and `route_message` — whatever route is active — resets the
route to general and returns the fixed greeting string; universality over
`svc` (the witness uses the always-raising service) shows no completion
call is consulted. -/
theorem claim_C8 (svc : Svc) (st : SessionState) (t : List Char)
    (h : re_match_dollar RGX_GREET_body t = true) :
    classify_intent t = "greet"
    ∧ route_message svc st t =
        ({ st with route := { cgm := false, weight := false, dme := false, general := true } },
          Except.ok GREET_REPLY) :=
  ⟨(classify_intent_greet_iff t).mpr h,
   route_message_greet_eq (greet_match_strTrim h)⟩

/-- Witness for C8: `" Hello "` (with surrounding whitespace) while the
DME route is active, with the always-raising service. -/
theorem claim_C8_witness :
    classify_intent (" Hello ".toList) = "greet"
    ∧ route_message svcFail stDme (" Hello ".toList) =
        ({ stDme with route := { cgm := false, weight := false, dme := false, general := true } },
          Except.ok GREET_REPLY) :=
  claim_C8 svcFail stDme (" Hello ".toList) (by decide)

/-- Claim C3: starting from the initial state (general active), after any
sequence of processed user messages — hence after every call to
`route_message` made by the driver — exactly one of the four route flags
is true. -/
theorem claim_C3 (svc : Svc) (inputs : List (List Char)) :
    activeCount
      ((inputs.foldl (fun st t => (process_input svc st t).1) initState).route) = 1 := by
  have aux : ∀ (l : List (List Char)) (st : SessionState), activeCount st.route = 1 →
      activeCount ((l.foldl (fun st t => (process_input svc st t).1) st).route) = 1 := by
    intro l
    induction l with
    | nil => intro st h; exact h
    | cons t l ih =>
        intro st h
        exact ih _ (process_input_activeCount h)
  exact aux inputs initState rfl

/-- Claim C10 (implicit): `set_active` with a string outside the four
route keys clears every flag, so `get_active` returns `none` and the
exactly-one invariant is violated; the invariant survives routing only
because `route_message` passes `set_active` nothing outside the four
keys, as the preservation half states. -/
theorem claim_C10 :
    (∀ (s : String) (r : RouteFlags),
      s ∉ (["cgm", "weight", "dme", "general"] : List String) →
      set_active s r = { cgm := false, weight := false, dme := false, general := false }
      ∧ get_active (set_active s r) = none
      ∧ activeCount (set_active s r) ≠ 1)
    ∧ (∀ (svc : Svc) (st : SessionState) (t : List Char),
      activeCount st.route = 1 → activeCount (route_message svc st t).1.route = 1) := by
  constructor
  · intro s r hs
    simp only [List.mem_cons, List.mem_singleton, List.not_mem_nil, or_false, not_or] at hs
    obtain ⟨h1, h2, h3, h4⟩ := hs
    have e1 : decide ("cgm" = s) = false := decide_eq_false fun hh => h1 hh.symm
    have e2 : decide ("weight" = s) = false := decide_eq_false fun hh => h2 hh.symm
    have e3 : decide ("dme" = s) = false := decide_eq_false fun hh => h3 hh.symm
    have e4 : decide ("general" = s) = false := decide_eq_false fun hh => h4 hh.symm
    have hset : set_active s r =
        { cgm := false, weight := false, dme := false, general := false } := by
      simp only [set_active, e1, e2, e3, e4]
    refine ⟨hset, ?_, ?_⟩
    · rw [hset]; rfl
    · rw [hset]; decide
  · intro svc st t h
    exact route_message_activeCount h

/-- Witness for C10: the out-of-enumeration string `"greet"` clears all
flags, while routing a concrete message preserves the invariant. -/
theorem claim_C10_witness :
    (set_active "greet" stCgm.route =
        { cgm := false, weight := false, dme := false, general := false }
      ∧ get_active (set_active "greet" stCgm.route) = none
      ∧ activeCount (set_active "greet" stCgm.route) ≠ 1)
    ∧ activeCount (route_message svcOkSure stCgm ("hi".toList)).1.route = 1 :=
  ⟨claim_C10.1 "greet" stCgm.route (by decide),
   claim_C10.2 svcOkSure stCgm ("hi".toList) (by decide)⟩

/-- Claim C5: when the classified intent of the (trimmed) input is a
specialist route different from the currently active one, `route_message`
activates that route and answers the triggering message itself through
the new route's template (`specialist_turn` with that route's prompt). -/
theorem claim_C5 (svc : Svc) (st : SessionState) (t : List Char) (a : String)
    (hact : get_active st.route = some a)
    (hmem : classify_intent (strTrim t) ∈ (["cgm", "weight", "dme"] : List String))
    (hne : classify_intent (strTrim t) ≠ a) :
    route_message svc st t =
      ({ st with route := set_active (classify_intent (strTrim t)) st.route },
        specialist_turn svc st.messages (prompt_of (classify_intent (strTrim t)))
          (strTrim t))
    ∧ get_active (set_active (classify_intent (strTrim t)) st.route) =
        some (classify_intent (strTrim t)) := by
  constructor
  · rw [route_message_switch_eq hact hmem hne, dispatch_specialist hmem]
  · have hmem' : classify_intent (strTrim t) = "cgm" ∨
        classify_intent (strTrim t) = "weight" ∨
        classify_intent (strTrim t) = "dme" := by simpa using hmem
    rcases hmem' with h' | h' | h' <;> rw [h'] <;> rfl

/-- Witness for C5: with the CGM route active, the weight-loss keyword
`"ozempic"` switches the route to weight and is answered with the
weight-loss template on that same message. -/
theorem claim_C5_witness :
    route_message svcOkSure stCgm ("ozempic".toList) =
      ({ stCgm with route := set_active "weight" stCgm.route },
        specialist_turn svcOkSure [] WEIGHT_PROMPT ("ozempic".toList))
    ∧ get_active (set_active "weight" stCgm.route) = some "weight" :=
  claim_C5 svcOkSure stCgm ("ozempic".toList) "cgm" (by decide) (by decide) (by decide)

/-- Claim C4: with prior log `[user u1, assistant a1, user u2]` and the
incoming user turn `u3` already appended by the driver, the message list
built for the completion call is exactly
`[system prompt, assistant a1, user u2, user u3]` — the trailing copy of
`u3` in the history is excluded from the window and the current message
appears exactly once (at the end). -/
theorem claim_C4 (p u1 a1 u2 u3 : List Char) (svc : Svc) (temp : Float) :
    build_ctx_msgs p
        [{ role := "user", content := u1 }, { role := "assistant", content := a1 },
          { role := "user", content := u2 }, { role := "user", content := u3 }] u3 =
      [{ role := "system", content := p }, { role := "assistant", content := a1 },
        { role := "user", content := u2 }, { role := "user", content := u3 }]
    ∧ specialist_turn svc
        [{ role := "user", content := u1 }, { role := "assistant", content := a1 },
          { role := "user", content := u2 }, { role := "user", content := u3 }] p u3 temp =
      (chat_complete svc
          [{ role := "system", content := p }, { role := "assistant", content := a1 },
            { role := "user", content := u2 }, { role := "user", content := u3 }]
          temp).map (fun r => if r = [] then NO_RESPONSE else r)
    ∧ (u3 ≠ u2 →
        (([{ role := "system", content := p }, { role := "assistant", content := a1 },
            { role := "user", content := u2 }, { role := "user", content := u3 }] :
              List Msg).countP
          (fun m => m = Msg.mk "user" u3)) = 1) := by
  refine ⟨rfl, rfl, fun hne => ?_⟩
  have e1 : (decide (Msg.mk "system" p = Msg.mk "user" u3)) = false :=
    decide_eq_false (by simp [Msg.mk.injEq])
  have e2 : (decide (Msg.mk "assistant" a1 = Msg.mk "user" u3)) = false :=
    decide_eq_false (by simp [Msg.mk.injEq])
  have e3 : (decide (Msg.mk "user" u2 = Msg.mk "user" u3)) = false :=
    decide_eq_false (by simp only [Msg.mk.injEq, not_and]; intro _ hh; exact hne hh.symm)
  have e4 : (decide (Msg.mk "user" u3 = Msg.mk "user" u3)) = true := decide_eq_true rfl
  simp only [List.countP_cons, List.countP_nil, e1, e2, e3, e4]
  norm_num

/-- Witness for C4 at concrete contents. -/
theorem claim_C4_witness :
    build_ctx_msgs ("s".toList)
        [{ role := "user", content := "u1".toList },
          { role := "assistant", content := "a1".toList },
          { role := "user", content := "u2".toList },
          { role := "user", content := "u3".toList }] ("u3".toList) =
      [{ role := "system", content := "s".toList },
        { role := "assistant", content := "a1".toList },
        { role := "user", content := "u2".toList },
        { role := "user", content := "u3".toList }]
    ∧ (([{ role := "system", content := "s".toList },
        { role := "assistant", content := "a1".toList },
        { role := "user", content := "u2".toList },
        { role := "user", content := "u3".toList }] : List Msg).countP
          (fun m => m = Msg.mk "user" ("u3".toList))) = 1 :=
  ⟨(claim_C4 ("s".toList) ("u1".toList) ("a1".toList) ("u2".toList) ("u3".toList)
      svcOkSure 0.2).1,
   (claim_C4 ("s".toList) ("u1".toList) ("a1".toList) ("u2".toList) ("u3".toList)
      svcOkSure 0.2).2.2 (by decide)⟩

/-- Counterexample to C1: with a completion service that raises, routing
an ordinary message returns the propagated exception — not the fixed
placeholder reply the claim promises ("caught at the reply-generation
boundary, converted into a fixed placeholder message").  There is no
try/except anywhere on this path in `new.py`. -/
theorem claim_C1_counterexample :
    (route_message svcFail initState ("help".toList)).2 = Except.error () := by
  decide

/-- Claim C1 as amended: a completion-service exception is NOT caught.
On every input that is neither a reset command nor a greeting (the only
service-free short circuits), the exception propagates unchanged out of
`route_message`, aborting the turn; no placeholder is substituted. -/
theorem claim_C1_amended (svc : Svc) (st : SessionState) (t : List Char)
    (hsvc : ∀ msgs temp, svc msgs temp = Except.error ())
    (hreset : ¬(strLower (strTrim t) = "reset".toList ∨
      strLower (strTrim t) = "exit".toList ∨
      strLower (strTrim t) = "start over".toList))
    (hgreet : classify_intent (strTrim t) ≠ "greet") :
    (route_message svc st t).2 = Except.error () :=
  route_message_error_prop hsvc hreset hgreet

/-- Witness for the amended C1. -/
theorem claim_C1_amended_witness :
    (route_message svcFail stCgm ("pricing".toList)).2 = Except.error () :=
  claim_C1_amended svcFail stCgm ("pricing".toList) (fun _ _ => rfl)
    (by decide) (by decide)

/-- Counterexample to C2: on the general route a whitespace-only
completion response is returned — and hence stored — as the empty
string, not the fixed placeholder: `general_reply` lacks the
`or "⚠️ No response."` fallback that `specialist_turn` has. -/
theorem claim_C2_counterexample :
    (route_message svcBlank initState ("pricing".toList)).2 =
      Except.ok ([] : List Char) := by
  decide

/-- Claim C2 as amended: on the three specialist routes an empty (or
whitespace-only, hence trimmed to empty) completion response is replaced
by the fixed placeholder and a specialist reply is never the empty
string; the general route, by contrast, propagates the empty string. -/
theorem claim_C2_amended :
    (∀ (svc : Svc) (global : List Msg) (p u : List Char) (temp : Float),
      chat_complete svc (build_ctx_msgs p global u) temp = Except.ok [] →
      specialist_turn svc global p u temp = Except.ok NO_RESPONSE)
    ∧ (∀ (svc : Svc) (global : List Msg) (p u : List Char) (temp : Float)
        (r : List Char),
      specialist_turn svc global p u temp = Except.ok r → r ≠ [])
    ∧ (∀ (svc : Svc) (global : List Msg) (u : List Char),
      chat_complete svc (build_ctx_msgs GENERAL_PROMPT global u) 0.6 = Except.ok [] →
      general_reply svc global u = Except.ok []) := by
  refine ⟨?_, ?_, ?_⟩
  · intro svc global p u temp h
    unfold specialist_turn
    rw [h]
    rfl
  · intro svc global p u temp r h
    unfold specialist_turn at h
    cases hc : chat_complete svc (build_ctx_msgs p global u) temp with
    | error e => rw [hc] at h; cases h
    | ok s =>
        rw [hc] at h
        simp only [Except.map, Except.ok.injEq] at h
        by_cases hs : s = []
        · rw [if_pos hs] at h
          rw [← h]
          decide
        · rw [if_neg hs] at h
          rw [← h]
          exact hs
  · intro svc global u h
    unfold general_reply
    exact h

/-- Witness for the amended C2 on the blank service. -/
theorem claim_C2_amended_witness :
    specialist_turn svcBlank [] CGM_PROMPT ("x".toList) 0.2 = Except.ok NO_RESPONSE
    ∧ general_reply svcBlank [] ("x".toList) = Except.ok [] :=
  ⟨claim_C2_amended.1 svcBlank [] CGM_PROMPT ("x".toList) 0.2 (by decide),
   claim_C2_amended.2.2 svcBlank [] ("x".toList) (by decide)⟩
